import Mathlib

/-!
Shallow embedding of the Calory Diary automation engine
(`CaloryDiaryAutomation_v2.gs`): the Mifflin-St Jeor calculator
(`getMaxCaloriesFromDashboard`), the log aggregator
(`computeDailyTotalsFromLog`), the summary upserter (`upsertDailySummary`),
the orchestrator (`refreshCaloryDiary`) and the web endpoint (`doGet`).

Spreadsheet cell values are modelled by `CellVal`; JavaScript numbers are
modelled by `ℚ` with `Option ℚ` standing for "a number or NaN" (`none` =
NaN).  Errors (`throw new Error(msg)`) are modelled by `Except String`.
-/

/-- Decimal digit value of a character (only meaningful on digits). -/
def digitVal (c : Char) : ℕ := c.toNat - 48

/-- Value of a digit string, most significant first. -/
def digitsToNat (ds : List Char) : ℕ := ds.foldl (fun a c => 10 * a + digitVal c) 0

/-- Parse an unsigned decimal literal `digits[.digits]` from the front of a
character list, ignoring any trailing garbage, as JavaScript `parseFloat`
does.  Returns `none` (NaN) when no digit is found.  Exponent notation is
not modelled (never produced by the spreadsheet inputs in this code base). -/
def parseDecimal (cs : List Char) : Option ℚ :=
  let intPart := cs.takeWhile Char.isDigit
  let rest := cs.dropWhile Char.isDigit
  let fracPart :=
    match rest with
    | '.' :: rest2 => rest2.takeWhile Char.isDigit
    | _ => []
  if intPart.isEmpty && fracPart.isEmpty then none
  else some ((digitsToNat intPart : ℚ) + (digitsToNat fracPart : ℚ) / (10 : ℚ) ^ fracPart.length)

/-- JavaScript `parseFloat` on a string: skip leading whitespace, optional
sign, then a decimal literal; `none` models NaN. -/
def parseFloatStr (s : String) : Option ℚ :=
  match s.toList.dropWhile Char.isWhitespace with
  | '-' :: cs => (parseDecimal cs).map (fun q => -q)
  | '+' :: cs => parseDecimal cs
  | cs => parseDecimal cs

/-- `leadsWith pat cs` holds when `pat` occurs at the front of `cs`. -/
def leadsWith : List Char → List Char → Bool
  | [], _ => true
  | _ :: _, [] => false
  | p :: ps, c :: cs => p == c && leadsWith ps cs

/-- `containsSeq pat cs` holds when `pat` occurs contiguously in `cs`. -/
def containsSeq (pat : List Char) : List Char → Bool
  | [] => leadsWith pat []
  | c :: cs => leadsWith pat (c :: cs) || containsSeq pat cs

/-- JavaScript `s.includes(pat)` (substring containment). -/
def strContains (s pat : String) : Bool := containsSeq pat.toList s.toList

/-- JavaScript `s.split(' ')[0]`: the segment before the first space. -/
def firstSpaceToken (s : String) : String :=
  String.mk (s.toList.takeWhile (fun c => !(c == ' ')))

/-- Syntactic `yyyy-MM-dd` check for a date string.  Calendar-range
validation (month at most 12, etc.) is not modelled; the claims never
exercise it. -/
def validDateKeyChars : List Char → Bool
  | [a, b, c, d, e, f, g, h, i, j] =>
      a.isDigit && b.isDigit && c.isDigit && d.isDigit && e == '-' &&
      f.isDigit && g.isDigit && h == '-' && i.isDigit && j.isDigit
  | _ => false

/-- Syntactic `yyyy-MM-dd` check for a date string. -/
def validDateKeyStr (s : String) : Bool := validDateKeyChars s.toList

/-- A spreadsheet cell value as returned by `getRange(...).getValue()`:
a number, a string, a Date object (identified by the `yyyy-MM-dd` key it
formats to in the script time zone), or an empty cell. -/
inductive CellVal where
  | num (q : ℚ)
  | str (s : String)
  | date (key : String)
  | empty
deriving DecidableEq

/-- JavaScript truthiness of a cell value (`!v` negated): `0`, `""` and the
empty cell are falsy; Date objects are always truthy. -/
def CellVal.truthy : CellVal → Bool
  | .num q => !(q == 0)
  | .str s => !(s == "")
  | .date _ => true
  | .empty => false

/-- JavaScript strict equality `v === 0`. -/
def CellVal.isNumZero : CellVal → Bool
  | .num q => q == 0
  | _ => false

/-- Models `new Date(v)` followed by the `isNaN(getTime())` validity check
and `Utilities.formatDate(_, tz, 'yyyy-MM-dd')`: a Date-typed cell yields
its key; a string in `yyyy-MM-dd` form yields itself (assuming the script
time zone renders the parsed date back to the same key); anything else is
an invalid date (`none`).  Numeric epoch values are not modelled. -/
def CellVal.toDateKey : CellVal → Option String
  | .date k => some k
  | .str s => if validDateKeyStr s then some s else none
  | _ => none

/-- JavaScript `parseFloat(v)` on a cell value.  For a number cell this is
`parseFloat(String(x)) = x`; for a Date cell or empty cell it is NaN. -/
def CellVal.parseFloat : CellVal → Option ℚ
  | .num q => some q
  | .str s => parseFloatStr s
  | .date _ => none
  | .empty => none

/-- Render a rational as JavaScript renders the numbers this engine
produces: integral values print as plain (possibly signed) integers.
Non-integral values (never reached by the claims) fall back to a
`num/den` rendering. -/
def ratText (q : ℚ) : String :=
  if q.den = 1 then toString q.num else toString q.num ++ "/" ++ toString q.den

/-- JavaScript `v.toString()` on a cell value, as used for the gender,
activity and goal-offset text cells. -/
def CellVal.toText : CellVal → String
  | .num q => ratText q
  | .str s => s
  | .date k => k
  | .empty => ""

/-- JavaScript `s.toLowerCase()` (ASCII, which covers the dropdown
inputs): lowercase every character. -/
def strToLower (s : String) : String := String.mk (s.toList.map Char.toLower)

/-- Truthiness of a JavaScript number that may be NaN (`none`). -/
def jsTruthyNum : Option ℚ → Bool
  | none => false
  | some q => !(q == 0)

/-- JavaScript `Math.round`: half-intervals round toward positive
infinity (`Math.round(-2.5) = -2`). -/
def jsRound (q : ℚ) : ℤ := ⌊q + 1 / 2⌋

/-- The extraction of the activity multiplier from the dashboard cell:
if the text contains `'('` take `parseFloat` of the segment before the
first space, otherwise `parseFloat` of the whole text.  For a numeric
cell the composite `parseFloat(String(x))` is `x` and `String(x)` never
contains `'('`. -/
def extractDropdownNum (c : CellVal) : Option ℚ :=
  match c with
  | .str s => if strContains s "(" then parseFloatStr (firstSpaceToken s) else parseFloatStr s
  | .num q => some q
  | .date _ => none
  | .empty => none

/-- The extraction of the goal offset: like `extractDropdownNum`, but in
the branch without `'('` the source applies `|| 0`, so an unparseable
plain text defaults to `0` rather than NaN. -/
def extractGoalOffset (c : CellVal) : Option ℚ :=
  match c with
  | .str s => if strContains s "(" then parseFloatStr (firstSpaceToken s)
              else some ((parseFloatStr s).getD 0)
  | .num q => some q
  | .date _ => some 0
  | .empty => some 0

/-- The six personal-parameter input cells H2-H7 of the Dashboard sheet. -/
structure DashboardCells where
  gender : CellVal
  weight : CellVal
  height : CellVal
  age : CellVal
  activity : CellVal
  goalOffset : CellVal
deriving DecidableEq

/-- The intermediate values computed by `getMaxCaloriesFromDashboard`:
`bmr` and `tdee` are the source's local variables; `goalOffset` is the
parsed offset (`none` = NaN); `maxCalories` is the returned value
(`none` when the NaN offset propagates through `Math.round`). -/
structure CalcOutcome where
  bmr : ℚ
  tdee : ℚ
  goalOffset : Option ℚ
  maxCalories : Option ℤ
deriving DecidableEq

/-- The error message thrown by the metrics validation. -/
def missingMetricsMsg : String :=
  "Missing required personal metrics: weight, height, age, or activity multiplier"

/-- The error message thrown when the Dashboard sheet is absent. -/
def dashboardNotFoundMsg : String := "Dashboard sheet not found"

/-- The error message thrown when the Log sheet is absent. -/
def logNotFoundMsg : String := "Log sheet not found"

/-- The error message thrown when the Daily Summary sheet is absent. -/
def summaryNotFoundMsg : String :=
  "Daily Summary sheet not found. Please run Setup Daily Summary Sheet first."

/-- The body of `getMaxCaloriesFromDashboard` after the sheet lookup
(given the Dashboard's H2-H7 cells): lowercase the gender text,
`parseFloat` the weight / height / age cells, extract activity multiplier
and goal offset from their dropdown texts, throw on a falsy (NaN-or-zero)
weight, height, age or activity multiplier, then apply Mifflin-St Jeor,
TDEE and `Math.round`.  The gender test is the source's
`gender.includes('male') || gender === 'm'`. -/
def getMaxCaloriesFromCells (d : DashboardCells) : Except String CalcOutcome :=
  let gender := strToLower d.gender.toText
  let weight := d.weight.parseFloat
  let height := d.height.parseFloat
  let age := d.age.parseFloat
  let activityMultiplier := extractDropdownNum d.activity
  let goalOffset := extractGoalOffset d.goalOffset
  if !jsTruthyNum weight || !jsTruthyNum height || !jsTruthyNum age ||
      !jsTruthyNum activityMultiplier then
    .error missingMetricsMsg
  else
    let w := weight.getD 0
    let h := height.getD 0
    let a := age.getD 0
    let am := activityMultiplier.getD 0
    let bmr :=
      if strContains gender "male" || gender == "m" then
        10 * w + (6.25 : ℚ) * h - 5 * a + 5
      else
        10 * w + (6.25 : ℚ) * h - 5 * a - 161
    let tdee := bmr * am
    .ok ⟨bmr, tdee, goalOffset, goalOffset.map (fun go => jsRound (tdee + go))⟩

/-- The value the calculator returns to its callers: the rounded max
calories (`none` = NaN). -/
def getMaxCalories (d : DashboardCells) : Except String (Option ℤ) :=
  (getMaxCaloriesFromCells d).map (fun o => o.maxCalories)

/-- A Log sheet data row: the Date column A and the Calories column E.
Columns B-D (time, meal type, description) are never read by
`computeDailyTotalsFromLog` and are omitted. -/
structure LogRow where
  date : CellVal
  calories : CellVal
deriving DecidableEq

/-- The per-date totals: a JavaScript object keyed by DateKey, i.e. an
insertion-ordered association list with no duplicate keys. -/
abbrev TotalsMap := List (String × ℚ)

/-- Whether a totals map already holds a key. -/
def mapHasKey (m : TotalsMap) (k : String) : Bool := m.any (fun p => p.1 == k)

/-- `dailyTotalsMap[k] = (dailyTotalsMap[k] initialised to 0) + v`:
add `v` to the running total for `k`, inserting the key at the end in
insertion order when absent (JavaScript object key order). -/
def mapInsertAdd (m : TotalsMap) (k : String) (v : ℚ) : TotalsMap :=
  if mapHasKey m k then m.map (fun p => if p.1 == k then (p.1, p.2 + v) else p)
  else m ++ [(k, v)]

/-- The keys of a totals map, in insertion order. -/
def mapKeys (m : TotalsMap) : List String := m.map Prod.fst

/-- The sum of all values of a totals map. -/
def sumValues (m : TotalsMap) : ℚ := (m.map Prod.snd).sum

/-- `m[k]`: the value stored under a key, if any. -/
def mapLookup (m : TotalsMap) (k : String) : Option ℚ :=
  (m.find? (fun p => p.1 == k)).map Prod.snd

/-- One iteration of the `computeDailyTotalsFromLog` loop: skip the row
when the date cell is falsy or the calories cell is falsy without being
the number `0`; skip when the date does not parse; otherwise accumulate
`parseFloat(calories) || 0` under the row's DateKey. -/
def processLogRow (m : TotalsMap) (r : LogRow) : TotalsMap :=
  if !r.date.truthy || (!r.calories.truthy && !r.calories.isNumZero) then m
  else
    match r.date.toDateKey with
    | none => m
    | some k => mapInsertAdd m k ((r.calories.parseFloat).getD 0)

/-- The aggregation loop of `computeDailyTotalsFromLog` over the data
rows below the header. -/
def dailyTotalsOfRows (rows : List LogRow) : TotalsMap :=
  rows.foldl processLogRow []

/-- Whether a log row survives the aggregator's skip checks (truthy and
parseable date, calories truthy or the number `0`): the entries the spec
calls valid. -/
def isValidEntry (r : LogRow) : Bool :=
  (r.date.truthy && (r.calories.truthy || r.calories.isNumZero)) &&
    (r.date.toDateKey).isSome

/-- The DateKey a log row aggregates under, when it is a valid entry. -/
def entryKey (r : LogRow) : Option String :=
  if (r.date.truthy && (r.calories.truthy || r.calories.isNumZero)) then r.date.toDateKey
  else none

/-- The calories a valid entry contributes: `parseFloat(calories) || 0`
(so non-numeric calories are coerced to `0`). -/
def entryCalories (r : LogRow) : ℚ := (r.calories.parseFloat).getD 0

/-- A Daily Summary sheet data row as written by `upsertDailySummary`:
`[dateObj, totalCalories, maxCalories, status]` plus the background
colour set on the status cell (the paired font colour is determined by
the same condition and is not modelled separately).  `limit` is the
JavaScript number `maxCalories` (`none` = NaN). -/
structure SummaryRow where
  date : CellVal
  total : ℚ
  limit : Option ℚ
  status : String
  bg : String
deriving DecidableEq

/-- JavaScript `x >= 0` on a possibly-NaN number (NaN compares false). -/
def jsGeZero : Option ℚ → Bool
  | some r => decide (0 ≤ r)
  | none => false

/-- JavaScript string interpolation of a possibly-NaN number. -/
def jsNumText : Option ℚ → String
  | none => "NaN"
  | some q => ratText q

/-- The row `upsertDailySummary` writes for a `(dateKey, totalCalories)`
pair against goal limit `g`: `remaining = maxCalories - totalCalories`,
status text and colour from `remaining >= 0`, date stored as
`new Date(dateKey)`. -/
def mkSummaryRow (g : Option ℚ) (kv : String × ℚ) : SummaryRow :=
  let remaining : Option ℚ := g.map (fun x => x - kv.2)
  { date := .date kv.1
    total := kv.2
    limit := g
    status :=
      if jsGeZero remaining then "Under Goal (+" ++ jsNumText remaining ++ ")"
      else "Over Goal (" ++ jsNumText remaining ++ ")"
    bg := if jsGeZero remaining then "#d4edda" else "#f8d7da" }

/-- The DateKey under which an existing summary row is indexed by the
`existingDatesMap` loop: skipped when the date cell is falsy, else
`formatDate(new Date(cell))`. -/
def rowKey (r : SummaryRow) : Option String :=
  if r.date.truthy then r.date.toDateKey else none

/-- Index of the last element satisfying `p` (the `existingDatesMap`
object is written first-to-last, so a later row overwrites an earlier
one with the same DateKey). -/
def findLastIdx? (p : α → Bool) : List α → Option ℕ
  | [] => none
  | a :: as =>
      match findLastIdx? p as with
      | some j => some (j + 1)
      | none => if p a then some 0 else none

/-- `existingDatesMap[k]` as a 0-based index into the summary data rows. -/
def findRowIndex (rows : List SummaryRow) (k : String) : Option ℕ :=
  findLastIdx? (fun r => rowKey r == some k) rows

/-- One iteration of the upsert loop: update the existing row in place
when `existingDatesMap` (captured before the loop as `look`) holds the
key, otherwise append after the current last row. -/
def upsertStep (look : String → Option ℕ) (g : Option ℚ)
    (rows : List SummaryRow) (kv : String × ℚ) : List SummaryRow :=
  match look kv.1 with
  | some i => rows.set i (mkSummaryRow g kv)
  | none => rows ++ [mkSummaryRow g kv]

/-- The write loop of `upsertDailySummary` over the summary data rows
(the header row is implicit; indices are 0-based data indices). -/
def upsertRows (rows : List SummaryRow) (totals : TotalsMap) (g : Option ℚ) :
    List SummaryRow :=
  totals.foldl (upsertStep (findRowIndex rows) g) rows

/-- The three sheets of the spreadsheet; `none` models an absent sheet.
Only the engine-relevant content is kept: the Dashboard's H2-H7 input
cells, the Log data rows, the Daily Summary data rows. -/
structure Spreadsheet where
  dashboard : Option DashboardCells
  log : Option (List LogRow)
  summary : Option (List SummaryRow)
deriving DecidableEq

/-- Source `getMaxCaloriesFromDashboard`: throws when the Dashboard
sheet is absent, else computes from its cells. -/
def getMaxCaloriesFromDashboard (ss : Spreadsheet) : Except String CalcOutcome :=
  match ss.dashboard with
  | none => .error dashboardNotFoundMsg
  | some d => getMaxCaloriesFromCells d

/-- Source `computeDailyTotalsFromLog`: throws when the Log sheet is
absent, else aggregates its data rows.  (The source's early return on an
empty sheet yields the same empty map as the loop.) -/
def computeDailyTotalsFromLog (ss : Spreadsheet) : Except String TotalsMap :=
  match ss.log with
  | none => .error logNotFoundMsg
  | some rows => .ok (dailyTotalsOfRows rows)

/-- Source `upsertDailySummary`: throws when the Daily Summary sheet is
absent, else runs the write loop and returns the resulting data rows. -/
def upsertDailySummary (ss : Spreadsheet) (totals : TotalsMap) (g : Option ℚ) :
    Except String (List SummaryRow) :=
  match ss.summary with
  | none => .error summaryNotFoundMsg
  | some rows => .ok (upsertRows rows totals g)

/-- The body of `refreshCaloryDiary`'s `try` block: max calories from
the Dashboard, totals from the Log, then the summary upsert.  Every
throw happens before the first summary write, so a failure leaves the
summary rows untouched.  (`updateDashboardTodayView` only rewrites the
Dashboard's A2-D2 projection cells, catches its own errors, and never
touches the summary store; it is not modelled.) -/
def runRefreshPipeline (ss : Spreadsheet) : Except String (List SummaryRow) := do
  let outcome ← getMaxCaloriesFromDashboard ss
  let totals ← computeDailyTotalsFromLog ss
  upsertDailySummary ss totals (outcome.maxCalories.map (fun z => (z : ℚ)))

/-- Source `refreshCaloryDiary`: runs the pipeline, `catch`es any error
and only logs it (the second component), never rethrowing.  Returns the
updated spreadsheet and the logged error message, if any. -/
def refreshCaloryDiary (ss : Spreadsheet) : Spreadsheet × Option String :=
  match runRefreshPipeline ss with
  | .ok rows => ({ ss with summary := some rows }, none)
  | .error msg => (ss, some msg)

/-- The JSON fields of the `doGet` response relevant to the claims. -/
structure DoGetResponse where
  success : Bool
  message : String
deriving DecidableEq

/-- Source `doGet` with `action=refresh`: calls `refreshCaloryDiary`
(which swallows its own errors) and then unconditionally builds the
`success: true` response; `doGet`'s own `catch` is unreachable on this
path. -/
def doGetRefresh (ss : Spreadsheet) : Spreadsheet × DoGetResponse :=
  let res := refreshCaloryDiary ss
  (res.1, ⟨true, "Calory diary refreshed successfully"⟩)

/-- The `onEdit` ProfileChanged path (an H2-H7 cell edited): the same
max-calories / totals / upsert pipeline as `refreshCaloryDiary`, with
the trigger's own `catch` swallowing errors. -/
def onEditProfileChanged (ss : Spreadsheet) : Spreadsheet × Option String :=
  match runRefreshPipeline ss with
  | .ok rows => ({ ss with summary := some rows }, none)
  | .error msg => (ss, some msg)

deriving instance DecidableEq for Except

/-- Modelled from the spec: "rounding half-away-from-zero to the nearest
integer" — the reference rounding the specification ascribes to the goal
computation, for comparison with the source's `Math.round` (`jsRound`). -/
def specRoundHalfAwayFromZero (q : ℚ) : ℤ :=
  if 0 ≤ q then ⌊q + 1 / 2⌋ else -⌊-q + 1 / 2⌋

/-- The spec's concrete scenario profile:
Male, 70 kg, 175 cm, 30 y, activity "1.55 (Moderate)", offset
"-500 (Weight Loss)". -/
def scenarioCells : DashboardCells :=
  ⟨.str "Male", .num 70, .num 175, .num 30, .str "1.55 (Moderate)", .str "-500 (Weight Loss)"⟩

/-- The spec's concrete scenario log: four entries on 2024-01-15. -/
def scenarioLog : List LogRow :=
  [⟨.date "2024-01-15", .num 350⟩, ⟨.date "2024-01-15", .num 450⟩,
   ⟨.date "2024-01-15", .num 600⟩, ⟨.date "2024-01-15", .num 200⟩]

/-- The spec's concrete scenario spreadsheet, with an empty summary. -/
def scenarioSheet : Spreadsheet := ⟨some scenarioCells, some scenarioLog, some []⟩

/-- A profile whose gender cell reads "Female". -/
def femaleCells : DashboardCells :=
  ⟨.str "Female", .num 70, .num 175, .num 30, .str "1.55 (Moderate)", .str "0 (Maintenance)"⟩

/-- A profile with a negative (non-positive but truthy) weight. -/
def negWeightCells : DashboardCells :=
  ⟨.str "Male", .num (-70), .num 175, .num 30, .str "1.55 (Moderate)", .str "0 (Maintenance)"⟩

/-- A profile whose goal-offset label contains `'('` but no numeric
token. -/
def nanGoalCells : DashboardCells :=
  ⟨.str "Male", .num 70, .num 175, .num 30, .str "1.55 (Moderate)", .str "x (y)"⟩

/-- A valid profile (all metrics positive) whose `TDEE + goalOffset` is
the negative half-integer `-1289.5`. -/
def negHalfCells : DashboardCells :=
  ⟨.str "f", .num 1, .num 1, .num 100, .num 2, .num 0⟩

/-- A spreadsheet whose Dashboard sheet is absent. -/
def noDashboardSheet : Spreadsheet := ⟨none, some [], some []⟩

/-- A log row with a valid date and the non-numeric calories text
`"abc"`. -/
def abcRow : LogRow := ⟨.date "2024-01-15", .str "abc"⟩

/-! ## Lemmas about the totals map and the aggregator -/

theorem mapHasKey_iff (m : TotalsMap) (k : String) :
    mapHasKey m k = true ↔ k ∈ mapKeys m := by
  simp only [mapHasKey, mapKeys, List.any_eq_true, List.mem_map, beq_iff_eq]

theorem mapKeys_update (m : TotalsMap) (k : String) (v : ℚ) :
    mapKeys (m.map (fun p => if p.1 == k then (p.1, p.2 + v) else p)) = mapKeys m := by
  simp only [mapKeys, List.map_map]
  apply List.map_congr_left
  intro p _
  by_cases h : p.1 = k <;> simp [h]

theorem map_update_of_not_mem (m : TotalsMap) (k : String) (v : ℚ)
    (h : k ∉ mapKeys m) :
    m.map (fun p => if p.1 == k then (p.1, p.2 + v) else p) = m := by
  conv_rhs => rw [← List.map_id m]
  apply List.map_congr_left
  intro p hp
  have hne : p.1 ≠ k := by
    intro he
    exact h (by simpa [mapKeys, he] using List.mem_map_of_mem Prod.fst hp)
  simp [hne]

theorem sumValues_cons (p : String × ℚ) (m : TotalsMap) :
    sumValues (p :: m) = p.2 + sumValues m := by
  simp [sumValues]

theorem sumValues_update_of_mem (m : TotalsMap) (k : String) (v : ℚ)
    (h : (mapKeys m).Nodup) (hk : k ∈ mapKeys m) :
    sumValues (m.map fun p => if p.1 == k then (p.1, p.2 + v) else p) =
      sumValues m + v := by
  induction m with
  | nil => simp [mapKeys] at hk
  | cons p m ih =>
    have h' : p.1 ∉ mapKeys m ∧ (mapKeys m).Nodup := by
      simpa [mapKeys, List.nodup_cons] using h
    by_cases hp : p.1 = k
    · have hnm : k ∉ mapKeys m := hp ▸ h'.1
      rw [List.map_cons, map_update_of_not_mem m k v hnm, if_pos (by simpa using hp),
        sumValues_cons, sumValues_cons]
      ring
    · have hk' : k ∈ mapKeys m := by
        have hmem : k ∈ p.1 :: mapKeys m := hk
        rcases List.mem_cons.mp hmem with h1 | h1
        · exact absurd h1.symm hp
        · exact h1
      rw [List.map_cons, if_neg (by simpa using hp), sumValues_cons, sumValues_cons,
        ih h'.2 hk']
      ring

theorem sumValues_append_single (m : TotalsMap) (k : String) (v : ℚ) :
    sumValues (m ++ [(k, v)]) = sumValues m + v := by
  simp [sumValues]

theorem sumValues_insertAdd (m : TotalsMap) (k : String) (v : ℚ)
    (h : (mapKeys m).Nodup) :
    sumValues (mapInsertAdd m k v) = sumValues m + v := by
  unfold mapInsertAdd
  split
  · rename_i hk
    exact sumValues_update_of_mem m k v h ((mapHasKey_iff m k).mp hk)
  · exact sumValues_append_single m k v

theorem nodup_mapKeys_insertAdd (m : TotalsMap) (k : String) (v : ℚ)
    (h : (mapKeys m).Nodup) : (mapKeys (mapInsertAdd m k v)).Nodup := by
  unfold mapInsertAdd
  split
  · rwa [mapKeys_update]
  · rename_i hk
    have hk' : k ∉ mapKeys m := fun hmem => hk ((mapHasKey_iff m k).mpr hmem)
    simp only [mapKeys, List.map_append]
    rw [List.nodup_append]
    refine ⟨h, by simp, ?_⟩
    intro a ha hb
    simp only [List.map_cons, List.map_nil, List.mem_singleton] at hb
    exact hk' (hb ▸ ha)

theorem mem_mapKeys_insertAdd (m : TotalsMap) (k k' : String) (v : ℚ) :
    k' ∈ mapKeys (mapInsertAdd m k v) ↔ k' ∈ mapKeys m ∨ k' = k := by
  unfold mapInsertAdd
  split
  · rename_i hk
    rw [mapKeys_update]
    have hm : k ∈ mapKeys m := (mapHasKey_iff m k).mp hk
    constructor
    · exact Or.inl
    · rintro (h | rfl)
      · exact h
      · exact hm
  · simp [mapKeys]

theorem processLogRow_eq (m : TotalsMap) (r : LogRow) :
    processLogRow m r =
      match entryKey r with
      | some k => mapInsertAdd m k (entryCalories r)
      | none => m := by
  unfold processLogRow entryKey entryCalories
  cases hd : r.date.truthy <;> cases hc : r.calories.truthy <;>
    cases hz : r.calories.isNumZero <;> simp [hd, hc, hz] <;>
    cases hk : r.date.toDateKey <;> simp [hk]

theorem isValidEntry_iff (r : LogRow) :
    isValidEntry r = true ↔ ∃ k, entryKey r = some k := by
  unfold isValidEntry entryKey
  cases hd : r.date.truthy <;> cases hc : r.calories.truthy <;>
    cases hz : r.calories.isNumZero <;> simp [hd, hc, hz] <;>
    cases hk : r.date.toDateKey <;> simp [hk]

theorem entryKey_of_valid (r : LogRow) (h : isValidEntry r = true) :
    entryKey r = r.date.toDateKey := by
  unfold isValidEntry at h
  unfold entryKey
  have h1 : (r.date.truthy && (r.calories.truthy || r.calories.isNumZero)) = true := by
    cases hx : (r.date.truthy && (r.calories.truthy || r.calories.isNumZero))
    · rw [hx] at h; simp at h
    · rfl
  rw [if_pos h1]

theorem dailyTotals_loop_nodup (rows : List LogRow) (m : TotalsMap)
    (h : (mapKeys m).Nodup) :
    (mapKeys (rows.foldl processLogRow m)).Nodup := by
  induction rows generalizing m with
  | nil => exact h
  | cons r rows ih =>
    rw [List.foldl_cons]
    apply ih
    rw [processLogRow_eq]
    cases entryKey r with
    | none => exact h
    | some k => exact nodup_mapKeys_insertAdd m k _ h

theorem dailyTotals_loop_sum (rows : List LogRow) (m : TotalsMap)
    (h : (mapKeys m).Nodup) :
    sumValues (rows.foldl processLogRow m) =
      sumValues m + ((rows.filter isValidEntry).map entryCalories).sum := by
  induction rows generalizing m with
  | nil => simp
  | cons r rows ih =>
    rw [List.foldl_cons, processLogRow_eq, List.filter_cons]
    cases hk : entryKey r with
    | none =>
      have hv : isValidEntry r = false := by
        rcases Bool.eq_false_or_eq_true (isValidEntry r) with h1 | h1
        · rcases (isValidEntry_iff r).mp h1 with ⟨k, hk'⟩
          rw [hk'] at hk; cases hk
        · exact h1
      simp only [hv, Bool.false_eq_true, if_false]
      exact ih m h
    | some k =>
      have hv : isValidEntry r = true := (isValidEntry_iff r).mpr ⟨k, hk⟩
      simp only [hv, if_pos]
      rw [ih _ (nodup_mapKeys_insertAdd m k _ h), sumValues_insertAdd m k _ h,
        List.map_cons, List.sum_cons]
      ring

theorem dailyTotals_loop_mem (rows : List LogRow) (m : TotalsMap) (k : String) :
    k ∈ mapKeys (rows.foldl processLogRow m) ↔
      k ∈ mapKeys m ∨ ∃ r ∈ rows, entryKey r = some k := by
  induction rows generalizing m with
  | nil => simp
  | cons r rows ih =>
    rw [List.foldl_cons, processLogRow_eq]
    cases hk : entryKey r with
    | none =>
      rw [ih m]
      simp only [List.mem_cons]
      constructor
      · rintro (h1 | ⟨r', hr', he⟩)
        · exact Or.inl h1
        · exact Or.inr ⟨r', Or.inr hr', he⟩
      · rintro (h1 | ⟨r', hr' | hr', he⟩)
        · exact Or.inl h1
        · rw [hr'] at he; rw [he] at hk; cases hk
        · exact Or.inr ⟨r', hr', he⟩
    | some k0 =>
      rw [ih _]
      rw [mem_mapKeys_insertAdd m k0 k _]
      simp only [List.mem_cons]
      constructor
      · rintro ((h1 | rfl) | ⟨r', hr', he⟩)
        · exact Or.inl h1
        · exact Or.inr ⟨r, Or.inl rfl, hk⟩
        · exact Or.inr ⟨r', Or.inr hr', he⟩
      · rintro (h1 | ⟨r', hr' | hr', he⟩)
        · exact Or.inl (Or.inl h1)
        · rw [hr'] at he; rw [he] at hk
          exact Or.inl (Or.inr (Option.some_injective _ hk))
        · exact Or.inr ⟨r', hr', he⟩

theorem find?_update_ne (m : TotalsMap) (k k' : String) (v : ℚ) (hne : k' ≠ k) :
    (m.map (fun p => if p.1 == k then (p.1, p.2 + v) else p)).find?
        (fun p => p.1 == k') = m.find? (fun p => p.1 == k') := by
  induction m with
  | nil => rfl
  | cons p m ih =>
    rw [List.map_cons, List.find?_cons, List.find?_cons]
    by_cases hp : p.1 = k
    · have h1 : ((if p.1 == k then (p.1, p.2 + v) else p).1 == k') = false := by
        simp [hp, Ne.symm hne]
      have h2 : (p.1 == k') = false := by simp [hp, Ne.symm hne]
      rw [h1, h2]
      exact ih
    · have h1 : (if p.1 == k then (p.1, p.2 + v) else p) = p := by simp [hp]
      rw [h1]
      cases hpk : (p.1 == k') <;> simp only [hpk]
      · exact ih

theorem mapLookup_insertAdd_ne (m : TotalsMap) (k k' : String) (v : ℚ)
    (hne : k' ≠ k) :
    mapLookup (mapInsertAdd m k v) k' = mapLookup m k' := by
  unfold mapInsertAdd mapLookup
  split
  · rw [find?_update_ne m k k' v hne]
  · rw [List.find?_append]
    cases hfind : m.find? (fun p => p.1 == k') with
    | some p => simp [hfind]
    | none => simp [hfind, Ne.symm hne]

/-! ## Lemmas about the existing-dates lookup -/

theorem findLastIdx?_none_iff (p : α → Bool) (l : List α) :
    findLastIdx? p l = none ↔ ∀ a ∈ l, p a = false := by
  induction l with
  | nil => simp [findLastIdx?]
  | cons a l ih =>
    rw [findLastIdx?]
    cases h : findLastIdx? p l with
    | some j =>
      simp only [List.mem_cons]
      constructor
      · intro hc; cases hc
      · intro hall
        have : findLastIdx? p l = none := (ih).mpr (fun b hb => hall b (Or.inr hb))
        rw [this] at h; cases h
    | none =>
      cases hp : p a
      · simp only [Bool.false_eq_true, if_false, List.mem_cons]
        constructor
        · intro _ b hb
          rcases hb with rfl | hb
          · exact hp
          · exact (ih.mp h) b hb
        · intro _; trivial
      · simp only [if_pos rfl, List.mem_cons]
        constructor
        · intro hc; cases hc
        · intro hall
          have := hall a (Or.inl rfl)
          rw [hp] at this; cases this

theorem findLastIdx?_some_lt (p : α → Bool) (l : List α) (j : ℕ)
    (h : findLastIdx? p l = some j) : j < l.length := by
  induction l generalizing j with
  | nil => cases h
  | cons a l ih =>
    rw [findLastIdx?] at h
    cases h' : findLastIdx? p l with
    | some j' =>
      rw [h'] at h
      cases h
      have := ih j' h'
      simp only [List.length_cons]
      omega
    | none =>
      rw [h'] at h
      cases hp : p a
      · rw [hp] at h; cases h
      · rw [hp] at h
        simp only [if_pos rfl] at h
        cases h
        simp

theorem findLastIdx?_some_pred (p : α → Bool) (l : List α) (j : ℕ)
    (h : findLastIdx? p l = some j) :
    ∃ a, l[j]? = some a ∧ p a = true := by
  induction l generalizing j with
  | nil => cases h
  | cons a l ih =>
    rw [findLastIdx?] at h
    cases h' : findLastIdx? p l with
    | some j' =>
      rw [h'] at h
      cases h
      rcases ih j' h' with ⟨b, hb, hpb⟩
      exact ⟨b, by rw [List.getElem?_cons_succ]; exact hb, hpb⟩
    | none =>
      rw [h'] at h
      cases hp : p a
      · rw [hp] at h; cases h
      · rw [hp] at h
        simp only [if_pos rfl] at h
        cases h
        exact ⟨a, by simp, hp⟩

theorem findLastIdx?_max (p : α → Bool) (l : List α) (j : ℕ)
    (h : findLastIdx? p l = some j) :
    ∀ i a, j < i → l[i]? = some a → p a = false := by
  induction l generalizing j with
  | nil => cases h
  | cons a l ih =>
    rw [findLastIdx?] at h
    intro i b hji hib
    cases h' : findLastIdx? p l with
    | some j' =>
      rw [h'] at h
      cases h
      cases i with
      | zero => omega
      | succ i' =>
        rw [List.getElem?_cons_succ] at hib
        exact ih j' h' i' b (by omega) hib
    | none =>
      rw [h'] at h
      cases hp : p a
      · rw [hp] at h; cases h
      · rw [hp] at h
        simp only [if_pos rfl] at h
        cases h
        cases i with
        | zero => omega
        | succ i' =>
          rw [List.getElem?_cons_succ] at hib
          exact ((findLastIdx?_none_iff p l).mp h') b (List.getElem?_mem hib)

theorem findRowIndex_lt (rows : List SummaryRow) (k : String) (i : ℕ)
    (h : findRowIndex rows k = some i) : i < rows.length :=
  findLastIdx?_some_lt _ rows i h

theorem findRowIndex_key (rows : List SummaryRow) (k : String) (i : ℕ)
    (h : findRowIndex rows k = some i) :
    ∃ r, rows[i]? = some r ∧ rowKey r = some k := by
  rcases findLastIdx?_some_pred _ rows i h with ⟨r, hr, hp⟩
  exact ⟨r, hr, by simpa using hp⟩

theorem findRowIndex_none_iff (rows : List SummaryRow) (k : String) :
    findRowIndex rows k = none ↔ ∀ r ∈ rows, rowKey r ≠ some k := by
  rw [findRowIndex, findLastIdx?_none_iff]
  constructor
  · intro h r hr he
    have := h r hr
    rw [he] at this
    simp at this
  · intro h r hr
    cases hx : (rowKey r == some k)
    · rfl
    · exact absurd (by simpa using hx) (h r hr)

theorem findRowIndex_max (rows : List SummaryRow) (k : String) (i : ℕ)
    (h : findRowIndex rows k = some i) :
    ∀ j r, i < j → rows[j]? = some r → rowKey r ≠ some k := by
  intro j r hij hjr he
  have := findLastIdx?_max _ rows i h j r hij hjr
  rw [he] at this
  simp at this

theorem findRowIndex_inj (rows : List SummaryRow) (k k' : String) (i : ℕ)
    (h : findRowIndex rows k = some i) (h' : findRowIndex rows k' = some i) :
    k = k' := by
  rcases findRowIndex_key rows k i h with ⟨r, hr, hk⟩
  rcases findRowIndex_key rows k' i h' with ⟨r', hr', hk'⟩
  rw [hr] at hr'
  cases hr'
  rw [hk] at hk'
  exact Option.some_injective _ hk'

theorem findRowIndex_isSome_of_mem (rows : List SummaryRow) (k : String)
    (r : SummaryRow) (hr : r ∈ rows) (hk : rowKey r = some k) :
    ∃ i, findRowIndex rows k = some i := by
  cases h : findRowIndex rows k with
  | some i => exact ⟨i, rfl⟩
  | none => exact absurd hk ((findRowIndex_none_iff rows k).mp h r hr)

/-! ## Characterization of the upsert loop -/

theorem rowKey_mkSummaryRow (g : Option ℚ) (kv : String × ℚ) :
    rowKey (mkSummaryRow g kv) = some kv.1 := by
  simp [rowKey, mkSummaryRow, CellVal.truthy, CellVal.toDateKey]

theorem upsertLoop_char (L : String → Option ℕ) (g : Option ℚ) (n : ℕ)
    (hL : ∀ k i, L k = some i → i < n)
    (hinj : ∀ k k' i, L k = some i → L k' = some i → k = k') :
    ∀ (totals : TotalsMap) (s : List SummaryRow), n ≤ s.length →
      (totals.map Prod.fst).Nodup →
      ((totals.foldl (upsertStep L g) s).length =
          s.length + (totals.filter (fun kv => (L kv.1).isNone)).length) ∧
      (∀ j, j < s.length →
        (totals.foldl (upsertStep L g) s)[j]? =
          (match totals.find? (fun kv => L kv.1 == some j) with
           | some kv => some (mkSummaryRow g kv)
           | none => s[j]?)) ∧
      ((totals.foldl (upsertStep L g) s).drop s.length =
          (totals.filter (fun kv => (L kv.1).isNone)).map (mkSummaryRow g)) := by
  intro totals
  induction totals with
  | nil =>
    intro s _ _
    refine ⟨by simp, ?_, by simp⟩
    intro j _
    simp
  | cons kv rest ih =>
    intro s hn hnd
    rw [List.map_cons, List.nodup_cons] at hnd
    obtain ⟨hkv, hnd'⟩ := hnd
    rw [List.foldl_cons]
    cases hLk : L kv.1 with
    | some i =>
      have hi : i < n := hL kv.1 i hLk
      have hstep : upsertStep L g s kv = s.set i (mkSummaryRow g kv) := by
        simp [upsertStep, hLk]
      rw [hstep]
      have hlen : (s.set i (mkSummaryRow g kv)).length = s.length := List.length_set ..
      obtain ⟨IH1, IH2, IH3⟩ :=
        ih (s.set i (mkSummaryRow g kv)) (by rw [hlen]; exact hn) hnd'
      refine ⟨?_, ?_, ?_⟩
      · rw [IH1, hlen, List.filter_cons]
        simp [hLk]
      · intro j hj
        rw [IH2 j (by rw [hlen]; exact hj)]
        rw [List.find?_cons]
        by_cases hij : i = j
        · subst hij
          have hpred : (L kv.1 == some i) = true := by simp [hLk]
          have hrest : rest.find? (fun kv' => L kv'.1 == some i) = none := by
            rw [List.find?_eq_none]
            intro kv' hkv' hpred'
            have h1 : L kv'.1 = some i := by simpa using hpred'
            have h2 : kv'.1 = kv.1 := hinj kv'.1 kv.1 i h1 hLk
            exact hkv (h2 ▸ List.mem_map_of_mem Prod.fst hkv')
          simp only [hpred, hrest]
          rw [List.getElem?_set_self (lt_of_lt_of_le hi hn)]
        · have hpred : (L kv.1 == some j) = false := by simp [hLk, hij]
          simp only [hpred]
          cases hf : rest.find? (fun kv' => L kv'.1 == some j) with
          | some kv' => simp
          | none => simp only []; rw [List.getElem?_set_ne hij]
      · rw [← hlen, IH3, List.filter_cons]
        simp [hLk]
    | none =>
      have hstep : upsertStep L g s kv = s ++ [mkSummaryRow g kv] := by
        simp [upsertStep, hLk]
      rw [hstep]
      have hlen : (s ++ [mkSummaryRow g kv]).length = s.length + 1 := by simp
      obtain ⟨IH1, IH2, IH3⟩ :=
        ih (s ++ [mkSummaryRow g kv]) (by rw [hlen]; omega) hnd'
      have hget :
          (rest.foldl (upsertStep L g) (s ++ [mkSummaryRow g kv]))[s.length]? =
            some (mkSummaryRow g kv) := by
        rw [IH2 s.length (by rw [hlen]; omega)]
        have hrest : rest.find? (fun kv' => L kv'.1 == some s.length) = none := by
          rw [List.find?_eq_none]
          intro kv' _ hpred'
          have h1 : L kv'.1 = some s.length := by simpa using hpred'
          have := hL kv'.1 s.length h1
          omega
        rw [hrest, List.getElem?_concat_length]
      refine ⟨?_, ?_, ?_⟩
      · rw [IH1, hlen, List.filter_cons]
        simp only [hLk, Option.isNone_none, if_pos, List.length_cons]
        omega
      · intro j hj
        rw [IH2 j (by rw [hlen]; omega)]
        rw [List.find?_cons]
        have hpred : (L kv.1 == some j) = false := by simp [hLk]
        simp only [hpred]
        cases hf : rest.find? (fun kv' => L kv'.1 == some j) with
        | some kv' => simp
        | none =>
          simp only []
          rw [List.getElem?_append]
          rw [if_pos hj]
      · have hlt : s.length <
            (rest.foldl (upsertStep L g) (s ++ [mkSummaryRow g kv])).length := by
          rw [IH1, hlen]
          omega
        rw [List.drop_eq_getElem_cons hlt]
        have h1 : (rest.foldl (upsertStep L g) (s ++ [mkSummaryRow g kv]))[s.length] =
            mkSummaryRow g kv := by
          have := hget
          rwa [List.getElem?_eq_getElem hlt, Option.some_inj] at this
        rw [h1]
        have h2 : (rest.foldl (upsertStep L g) (s ++ [mkSummaryRow g kv])).drop
            (s.length + 1) = (rest.filter (fun kv' => (L kv'.1).isNone)).map
              (mkSummaryRow g) := by
          rw [← IH3, hlen]
        rw [h2, List.filter_cons]
        simp [hLk]

theorem upsertRows_char (rows : List SummaryRow) (totals : TotalsMap) (g : Option ℚ)
    (hnd : (totals.map Prod.fst).Nodup) :
    ((upsertRows rows totals g).length =
        rows.length + (totals.filter (fun kv => (findRowIndex rows kv.1).isNone)).length) ∧
    (∀ j, j < rows.length →
      (upsertRows rows totals g)[j]? =
        (match totals.find? (fun kv => findRowIndex rows kv.1 == some j) with
         | some kv => some (mkSummaryRow g kv)
         | none => rows[j]?)) ∧
    ((upsertRows rows totals g).drop rows.length =
        (totals.filter (fun kv => (findRowIndex rows kv.1).isNone)).map (mkSummaryRow g)) :=
  upsertLoop_char (findRowIndex rows) g rows.length
    (fun k i h => findRowIndex_lt rows k i h)
    (fun k k' i h h' => findRowIndex_inj rows k k' i h h')
    totals rows le_rfl hnd

theorem foldl_upsertStep_none (g : Option ℚ) (totals : TotalsMap) :
    ∀ s : List SummaryRow,
      totals.foldl (upsertStep (fun _ => none) g) s =
        s ++ totals.map (mkSummaryRow g) := by
  induction totals with
  | nil => intro s; simp
  | cons kv rest ih =>
    intro s
    rw [List.foldl_cons]
    have hstep : upsertStep (fun _ => none) g s kv = s ++ [mkSummaryRow g kv] := rfl
    rw [hstep, ih, List.append_assoc]
    simp

theorem upsertRows_nil (totals : TotalsMap) (g : Option ℚ) :
    upsertRows [] totals g = totals.map (mkSummaryRow g) := by
  have h : findRowIndex ([] : List SummaryRow) = fun _ => none := by
    funext k; rfl
  unfold upsertRows
  rw [h, foldl_upsertStep_none]
  simp

theorem find?_eq_of_unique (l : List α) (p : α → Bool) (a : α)
    (ha : a ∈ l) (hpa : p a = true)
    (huniq : ∀ b ∈ l, p b = true → b = a) :
    l.find? p = some a := by
  induction l with
  | nil => cases ha
  | cons x l ih =>
    rw [List.find?_cons]
    cases hx : p x <;> simp only [hx]
    · rcases List.mem_cons.mp ha with rfl | ha'
      · rw [hpa] at hx; cases hx
      · exact ih ha' (fun b hb hpb => huniq b (List.mem_cons_of_mem x hb) hpb)
    · exact congrArg some (huniq x (List.mem_cons_self x l) hx)

theorem entry_eq_of_key_eq (totals : TotalsMap)
    (hnd : (totals.map Prod.fst).Nodup) (kv kv' : String × ℚ)
    (h : kv ∈ totals) (h' : kv' ∈ totals) (hk : kv.1 = kv'.1) :
    kv = kv' :=
  List.inj_on_of_nodup_map hnd h h' hk

theorem find?_byIndex_eq (rows : List SummaryRow) (totals : TotalsMap)
    (hnd : (totals.map Prod.fst).Nodup) (kv : String × ℚ) (i : ℕ)
    (hmem : kv ∈ totals) (hi : findRowIndex rows kv.1 = some i) :
    totals.find? (fun kv' => findRowIndex rows kv'.1 == some i) = some kv := by
  apply find?_eq_of_unique totals _ kv hmem (by simp [hi])
  intro b hb hpb
  have hb1 : findRowIndex rows b.1 = some i := by simpa using hpb
  exact entry_eq_of_key_eq totals hnd b kv hb hmem
    (findRowIndex_inj rows b.1 kv.1 i hb1 hi)

theorem mk_mem_upsertRows (rows : List SummaryRow) (totals : TotalsMap)
    (g : Option ℚ) (kv : String × ℚ) (hmem : kv ∈ totals)
    (hnd : (totals.map Prod.fst).Nodup) :
    mkSummaryRow g kv ∈ upsertRows rows totals g := by
  obtain ⟨H1, H2, H3⟩ := upsertRows_char rows totals g hnd
  cases hL : findRowIndex rows kv.1 with
  | some i =>
    have hi : i < rows.length := findRowIndex_lt rows kv.1 i hL
    have hfind := find?_byIndex_eq rows totals hnd kv i hmem hL
    have := H2 i hi
    rw [hfind] at this
    exact List.getElem?_mem this
  | none =>
    have hmm : mkSummaryRow g kv ∈
        (totals.filter (fun kv' => (findRowIndex rows kv'.1).isNone)).map
          (mkSummaryRow g) :=
      List.mem_map_of_mem _ (List.mem_filter.mpr ⟨hmem, by simp [hL]⟩)
    rw [← H3] at hmm
    exact List.drop_subset _ _ hmm

theorem upsertRows_idem (rows : List SummaryRow) (totals : TotalsMap)
    (g : Option ℚ) (hnd : (totals.map Prod.fst).Nodup) :
    upsertRows (upsertRows rows totals g) totals g = upsertRows rows totals g := by
  obtain ⟨A1, A2, A3⟩ := upsertRows_char rows totals g hnd
  obtain ⟨B1, B2, B3⟩ := upsertRows_char (upsertRows rows totals g) totals g hnd
  have hfilterB : totals.filter
      (fun kv => (findRowIndex (upsertRows rows totals g) kv.1).isNone) = [] := by
    rw [List.filter_eq_nil_iff]
    intro kv hkv hisnone
    obtain ⟨i, hi⟩ := findRowIndex_isSome_of_mem (upsertRows rows totals g) kv.1
      (mkSummaryRow g kv) (mk_mem_upsertRows rows totals g kv hkv hnd)
      (rowKey_mkSummaryRow g kv)
    rw [hi] at hisnone
    simp at hisnone
  have hlen : (upsertRows (upsertRows rows totals g) totals g).length =
      (upsertRows rows totals g).length := by
    rw [B1, hfilterB]
    simp
  apply List.ext_getElem?
  intro j
  by_cases hj : j < (upsertRows rows totals g).length
  · rw [B2 j hj]
    cases hfind : totals.find?
        (fun kv => findRowIndex (upsertRows rows totals g) kv.1 == some j) with
    | none => simp only []
    | some kv =>
      simp only []
      have hpred := List.find?_some hfind
      have hmem := List.mem_of_find?_eq_some hfind
      have hLj : findRowIndex (upsertRows rows totals g) kv.1 = some j := by
        simpa using hpred
      rcases findRowIndex_key _ kv.1 j hLj with ⟨r, hr, hk⟩
      suffices hsuff : (upsertRows rows totals g)[j]? = some (mkSummaryRow g kv) by
        rw [hsuff]
      by_cases hjr : j < rows.length
      · have hA2 := A2 j hjr
        cases hfindA : totals.find?
            (fun kv' => findRowIndex rows kv'.1 == some j) with
        | some kv' =>
          rw [hfindA] at hA2
          simp only [] at hA2
          have hreq : mkSummaryRow g kv' = r := by
            rw [hA2] at hr
            exact Option.some_inj.mp hr
          have hkeq : kv'.1 = kv.1 := by
            have := rowKey_mkSummaryRow g kv'
            rw [hreq, hk] at this
            exact (Option.some_inj.mp this).symm
          have : kv' = kv :=
            entry_eq_of_key_eq totals hnd kv' kv
              (List.mem_of_find?_eq_some hfindA) hmem hkeq
          rw [hA2, this]
        | none =>
          rw [hfindA] at hA2
          simp only [] at hA2
          have hrowsj : rows[j]? = some r := by rw [← hA2]; exact hr
          obtain ⟨i, hi⟩ := findRowIndex_isSome_of_mem rows kv.1 r
            (List.getElem?_mem hrowsj) hk
          have hji : j ≤ i := by
            by_contra hlt
            exact (findRowIndex_max rows kv.1 i hi j r (by omega) hrowsj) hk
          rcases Nat.lt_or_ge j i with hji' | hji'
          · have hiR : i < rows.length := findRowIndex_lt rows kv.1 i hi
            have hA2i := A2 i hiR
            rw [find?_byIndex_eq rows totals hnd kv i hmem hi] at hA2i
            simp only [] at hA2i
            exact absurd (rowKey_mkSummaryRow g kv)
              (findRowIndex_max (upsertRows rows totals g) kv.1 j hLj i
                (mkSummaryRow g kv) hji' hA2i)
          · have heq : j = i := by omega
            subst heq
            have := List.find?_eq_none.mp hfindA kv hmem
            simp [hi] at this
      · have hdrop : ((upsertRows rows totals g).drop rows.length)[j - rows.length]? =
            (upsertRows rows totals g)[j]? := by
          rw [List.getElem?_drop]
          congr 1
          omega
        rw [A3, List.getElem?_map] at hdrop
        cases hget : (totals.filter
            (fun kv' => (findRowIndex rows kv'.1).isNone))[j - rows.length]? with
        | none =>
          rw [hget] at hdrop
          rw [← hdrop] at hr
          cases hr
        | some kv0 =>
          rw [hget] at hdrop
          simp only [Option.map_some'] at hdrop
          have hr0 : mkSummaryRow g kv0 = r := by
            rw [← hdrop] at hr
            exact Option.some_inj.mp hr
          have hkeq : kv0.1 = kv.1 := by
            have := rowKey_mkSummaryRow g kv0
            rw [hr0, hk] at this
            exact (Option.some_inj.mp this).symm
          have hkv0mem : kv0 ∈ totals :=
            List.mem_of_mem_filter (List.getElem?_mem hget)
          have : kv0 = kv := entry_eq_of_key_eq totals hnd kv0 kv hkv0mem hmem hkeq
          rw [← hdrop, this]
  · rw [List.getElem?_eq_none (by rw [hlen]; omega), List.getElem?_eq_none (by omega)]

theorem findLastIdx?_map (f : α → β) (p : β → Bool) (l : List α) :
    findLastIdx? p (l.map f) = findLastIdx? (fun a => p (f a)) l := by
  induction l with
  | nil => rfl
  | cons a l ih => rw [List.map_cons, findLastIdx?, findLastIdx?, ih]

theorem findLastIdx?_nodup_key (totals : TotalsMap)
    (hnd : (totals.map Prod.fst).Nodup) (j : ℕ) (kv : String × ℚ)
    (hj : totals[j]? = some kv) :
    findLastIdx? (fun kv' => kv'.1 == kv.1) totals = some j := by
  induction totals generalizing j with
  | nil => cases hj
  | cons kv0 rest ih =>
    rw [List.map_cons, List.nodup_cons] at hnd
    cases j with
    | zero =>
      have hkv : kv0 = kv := Option.some_inj.mp (by simpa using hj)
      subst hkv
      rw [findLastIdx?]
      have hrest : findLastIdx? (fun kv' => kv'.1 == kv0.1) rest = none := by
        rw [findLastIdx?_none_iff]
        intro b hb
        cases hx : (b.1 == kv0.1)
        · rfl
        · have hbe : b.1 = kv0.1 := by simpa using hx
          exact absurd (hbe ▸ List.mem_map_of_mem Prod.fst hb) hnd.1
      rw [hrest]
      simp
    | succ j' =>
      rw [List.getElem?_cons_succ] at hj
      rw [findLastIdx?, ih hnd.2 j' hj]

theorem findRowIndex_map_mk (totals : TotalsMap) (g : Option ℚ) (k : String) :
    findRowIndex (totals.map (mkSummaryRow g)) k =
      findLastIdx? (fun kv => kv.1 == k) totals := by
  rw [findRowIndex, findLastIdx?_map]
  congr 1

theorem upsertRows_over_prior (totals : TotalsMap) (gOld gNew : Option ℚ)
    (hnd : (totals.map Prod.fst).Nodup) :
    upsertRows (totals.map (mkSummaryRow gOld)) totals gNew =
      totals.map (mkSummaryRow gNew) := by
  obtain ⟨H1, H2, H3⟩ :=
    upsertRows_char (totals.map (mkSummaryRow gOld)) totals gNew hnd
  have hlookup : ∀ j kv, totals[j]? = some kv →
      findRowIndex (totals.map (mkSummaryRow gOld)) kv.1 = some j := by
    intro j kv hj
    rw [findRowIndex_map_mk]
    exact findLastIdx?_nodup_key totals hnd j kv hj
  have hfilter : totals.filter
      (fun kv => (findRowIndex (totals.map (mkSummaryRow gOld)) kv.1).isNone) = [] := by
    rw [List.filter_eq_nil_iff]
    intro kv hkv hnone
    obtain ⟨j, hj⟩ := List.mem_iff_getElem?.mp hkv
    rw [hlookup j kv hj] at hnone
    simp at hnone
  apply List.ext_getElem?
  intro j
  by_cases hj : j < totals.length
  · have hjm : j < (totals.map (mkSummaryRow gOld)).length := by simpa using hj
    rw [H2 j hjm]
    obtain ⟨kv, hkv⟩ : ∃ kv, totals[j]? = some kv := by
      rw [List.getElem?_eq_getElem hj]
      exact ⟨totals[j], rfl⟩
    have hfind : totals.find?
        (fun kv' => findRowIndex (totals.map (mkSummaryRow gOld)) kv'.1 == some j) =
          some kv := by
      apply find?_eq_of_unique _ _ kv (List.getElem?_mem hkv)
        (by simp [hlookup j kv hkv])
      intro b hb hpb
      have hb1 : findRowIndex (totals.map (mkSummaryRow gOld)) b.1 = some j := by
        simpa using hpb
      have hbk : b.1 = kv.1 :=
        findRowIndex_inj _ b.1 kv.1 j hb1 (hlookup j kv hkv)
      exact entry_eq_of_key_eq totals hnd b kv hb (List.getElem?_mem hkv) hbk
    rw [hfind]
    simp only []
    rw [List.getElem?_map, hkv]
    rfl
  · have h1 : (upsertRows (totals.map (mkSummaryRow gOld)) totals gNew).length =
        totals.length := by
      rw [H1, hfilter]
      simp
    rw [List.getElem?_eq_none (by rw [h1]; omega),
      List.getElem?_eq_none (by rw [List.length_map]; omega)]

theorem dailyTotals_keys_nodup (rows : List LogRow) :
    ((dailyTotalsOfRows rows).map Prod.fst).Nodup :=
  dailyTotals_loop_nodup rows [] (by simp [mapKeys])

/-! ## Lemmas about the calculator and the orchestrator -/

theorem entryKey_eq_some_iff (r : LogRow) (k : String) :
    entryKey r = some k ↔
      isValidEntry r = true ∧ r.date.toDateKey = some k := by
  unfold entryKey isValidEntry
  cases hc : (r.date.truthy && (r.calories.truthy || r.calories.isNumZero)) <;>
    simp [hc] <;> cases hk : r.date.toDateKey <;> simp [hk]

theorem getMaxCaloriesFromCells_error_iff (d : DashboardCells) :
    (∃ e, getMaxCaloriesFromCells d = .error e) ↔
      (jsTruthyNum d.weight.parseFloat = false ∨
       jsTruthyNum d.height.parseFloat = false ∨
       jsTruthyNum d.age.parseFloat = false ∨
       jsTruthyNum (extractDropdownNum d.activity) = false) := by
  unfold getMaxCaloriesFromCells
  simp only []
  split
  · rename_i h
    constructor
    · intro _
      simpa [or_assoc] using h
    · intro _
      exact ⟨missingMetricsMsg, rfl⟩
  · rename_i h
    constructor
    · rintro ⟨e, he⟩
      cases he
    · intro hdisj
      exact absurd (by simpa [or_assoc] using hdisj) h

theorem getMaxCaloriesFromCells_ok_fields (d : DashboardCells) (o : CalcOutcome)
    (h : getMaxCaloriesFromCells d = .ok o) :
    o.goalOffset = extractGoalOffset d.goalOffset ∧
    o.maxCalories = o.goalOffset.map (fun go => jsRound (o.tdee + go)) := by
  unfold getMaxCaloriesFromCells at h
  simp only [] at h
  split at h
  · cases h
  · cases h
    exact ⟨rfl, rfl⟩

theorem jsRound_bounds (x : ℚ) :
    -(1 / 2 : ℚ) < (jsRound x : ℚ) - x ∧ (jsRound x : ℚ) - x ≤ 1 / 2 := by
  unfold jsRound
  constructor
  · have := Int.lt_floor_add_one (x + 1 / 2)
    linarith
  · have := Int.floor_le (x + 1 / 2)
    linarith

theorem refreshCaloryDiary_of_error (ss : Spreadsheet) (msg : String)
    (h : runRefreshPipeline ss = .error msg) :
    refreshCaloryDiary ss = (ss, some msg) := by
  unfold refreshCaloryDiary
  rw [h]

theorem refreshCaloryDiary_idem (ss : Spreadsheet) :
    refreshCaloryDiary ((refreshCaloryDiary ss).1) = refreshCaloryDiary ss := by
  obtain ⟨d, l, s⟩ := ss
  cases d with
  | none =>
    simp [refreshCaloryDiary, runRefreshPipeline, getMaxCaloriesFromDashboard,
      Bind.bind, Except.bind]
  | some dc =>
    cases hcalc : getMaxCaloriesFromCells dc with
    | error e =>
      simp [refreshCaloryDiary, runRefreshPipeline, getMaxCaloriesFromDashboard,
        hcalc, Bind.bind, Except.bind]
    | ok o =>
      cases l with
      | none =>
        simp [refreshCaloryDiary, runRefreshPipeline, getMaxCaloriesFromDashboard,
          computeDailyTotalsFromLog, hcalc, Bind.bind, Except.bind]
      | some logRows =>
        cases s with
        | none =>
          simp [refreshCaloryDiary, runRefreshPipeline, getMaxCaloriesFromDashboard,
            computeDailyTotalsFromLog, upsertDailySummary, hcalc, Bind.bind, Except.bind]
        | some srows =>
          simp only [refreshCaloryDiary, runRefreshPipeline, getMaxCaloriesFromDashboard,
            computeDailyTotalsFromLog, upsertDailySummary, hcalc, Bind.bind, Except.bind]
          rw [upsertRows_idem srows (dailyTotalsOfRows logRows) _
            (dailyTotals_keys_nodup logRows)]

/-! ## The claims -/

section
attribute [local semireducible] Rat.add Rat.mul Rat.sub Rat.inv Rat.ofScientific

/-- C1: re-running the summary upsert with an identical per-date totals
map and identical goal limit against its own prior output yields
identical summary records — no second row for an existing DateKey, no
value drift; in particular this holds for the totals map the aggregator
produces from any fixed entry set, and running the full refresh
pipeline twice in succession over a fixed spreadsheet produces the same
state (and logged outcome) as the first run. -/
theorem claim1_upsert_idempotent :
    (∀ (rows : List SummaryRow) (totals : TotalsMap) (g : Option ℚ),
        (totals.map Prod.fst).Nodup →
        upsertRows (upsertRows rows totals g) totals g = upsertRows rows totals g) ∧
    (∀ (rows : List SummaryRow) (log : List LogRow) (g : Option ℚ),
        upsertRows (upsertRows rows (dailyTotalsOfRows log) g)
          (dailyTotalsOfRows log) g = upsertRows rows (dailyTotalsOfRows log) g) ∧
    (∀ ss : Spreadsheet,
        refreshCaloryDiary ((refreshCaloryDiary ss).1) = refreshCaloryDiary ss) :=
  ⟨fun rows totals g hnd => upsertRows_idem rows totals g hnd,
   fun rows log g => upsertRows_idem rows (dailyTotalsOfRows log) g
     (dailyTotals_keys_nodup log),
   refreshCaloryDiary_idem⟩

/-- Witness for C1 at a concrete totals map, goal limit and prior
output. -/
theorem claim1_upsert_idempotent_witness :
    upsertRows (upsertRows [] [("2024-01-15", 1600)] (some 2056))
        [("2024-01-15", 1600)] (some 2056) =
      upsertRows [] [("2024-01-15", 1600)] (some 2056) :=
  claim1_upsert_idempotent.1 [] [("2024-01-15", 1600)] (some 2056) (by simp)

/-- C2 (code bug): for the profile whose sex cell reads "Female" the
calculator computes BMR with the male constant +5 — yielding BMR
1648.75 = 10×70 + 6.25×175 − 5×30 + 5 instead of the female value
10×70 + 6.25×175 − 5×30 − 161 = 1482.75 — because the source's test
`gender.includes('male')` is true for the string "female". -/
theorem claim2_female_gets_male_constant :
    getMaxCaloriesFromCells femaleCells =
      .ok ⟨1648.75, 2555.5625, some 0, some 2556⟩ ∧
    (1648.75 : ℚ) = 10 * 70 + 6.25 * 175 - 5 * 30 + 5 ∧
    (10 * 70 + 6.25 * 175 - 5 * 30 - 161 : ℚ) = 1482.75 ∧
    strContains "female" "male" = true := by decide

/-- C3: for every list of log rows, the sum of the values of the totals
map the aggregator returns equals the sum of the (coerced) calories of
all valid entries, and a DateKey is a key of the map exactly when some
valid entry carries it — appearing exactly once (the key list has no
duplicates). -/
theorem claim3_aggregator_conservation (rows : List LogRow) :
    sumValues (dailyTotalsOfRows rows) =
      ((rows.filter isValidEntry).map entryCalories).sum ∧
    (mapKeys (dailyTotalsOfRows rows)).Nodup ∧
    (∀ k, k ∈ mapKeys (dailyTotalsOfRows rows) ↔
      ∃ r ∈ rows, isValidEntry r = true ∧ r.date.toDateKey = some k) := by
  refine ⟨?_, dailyTotals_loop_nodup rows [] (by simp [mapKeys]), ?_⟩
  · have h := dailyTotals_loop_sum rows [] (by simp [mapKeys])
    simpa [sumValues, dailyTotalsOfRows] using h
  · intro k
    have h := dailyTotals_loop_mem rows [] k
    rw [show (dailyTotalsOfRows rows) = rows.foldl processLogRow [] from rfl, h]
    simp only [mapKeys, List.map_nil, List.not_mem_nil, false_or]
    constructor
    · rintro ⟨r, hr, he⟩
      exact ⟨r, hr, (entryKey_eq_some_iff r k).mp he⟩
    · rintro ⟨r, hr, hv, hk⟩
      exact ⟨r, hr, (entryKey_eq_some_iff r k).mpr ⟨hv, hk⟩⟩

/-- C4 counterexample: with the Dashboard sheet absent the pipeline
raises the fatal "Dashboard sheet not found" error, yet
`doGet action=refresh` answers `success: true` with the success
message — the failure is not reported to the external caller. -/
theorem claim4_doGet_counterexample :
    runRefreshPipeline noDashboardSheet = .error dashboardNotFoundMsg ∧
    (doGetRefresh noDashboardSheet).2.success = true ∧
    (doGetRefresh noDashboardSheet).2.message =
      "Calory diary refreshed successfully" ∧
    (doGetRefresh noDashboardSheet).1 = noDashboardSheet := by decide

/-- C4 amended: every fatal pipeline error (missing sheet, unparseable
biometrics) is thrown and reaches `refreshCaloryDiary`, which catches
and only logs it, leaving the whole spreadsheet — in particular the
summary store — unmodified; `doGet action=refresh` then reports
`success: true` regardless, so the failure is never surfaced to the
external caller. -/
theorem claim4_errors_swallowed (ss : Spreadsheet) (msg : String)
    (h : runRefreshPipeline ss = .error msg) :
    refreshCaloryDiary ss = (ss, some msg) ∧
    (doGetRefresh ss).1 = ss ∧
    (doGetRefresh ss).2 =
      ⟨true, "Calory diary refreshed successfully"⟩ := by
  have h1 : refreshCaloryDiary ss = (ss, some msg) :=
    refreshCaloryDiary_of_error ss msg h
  refine ⟨h1, ?_, rfl⟩
  unfold doGetRefresh
  rw [h1]

/-- Witness for C4 amended at the spreadsheet missing its Dashboard. -/
theorem claim4_errors_swallowed_witness :
    refreshCaloryDiary noDashboardSheet =
      (noDashboardSheet, some dashboardNotFoundMsg) ∧
    (doGetRefresh noDashboardSheet).1 = noDashboardSheet ∧
    (doGetRefresh noDashboardSheet).2 =
      ⟨true, "Calory diary refreshed successfully"⟩ :=
  claim4_errors_swallowed noDashboardSheet dashboardNotFoundMsg (by decide)

/-- C5: after a profile change, re-running the aggregation and upsert
over the same (unchanged) log rewrites every existing summary record —
the prior output of the pipeline under the old goal limit — against the
new goal limit: the result is exactly the records recomputed with the
new limit, and every row of it carries the new `goalLimit` and the
status recomputed from it. -/
theorem claim5_profile_change_rewrites_all (log : List LogRow) (gOld gNew : ℚ) :
    upsertRows (upsertRows [] (dailyTotalsOfRows log) (some gOld))
        (dailyTotalsOfRows log) (some gNew) =
      (dailyTotalsOfRows log).map (mkSummaryRow (some gNew)) ∧
    ∀ row ∈ upsertRows (upsertRows [] (dailyTotalsOfRows log) (some gOld))
        (dailyTotalsOfRows log) (some gNew),
      row.limit = some gNew := by
  have h1 : upsertRows [] (dailyTotalsOfRows log) (some gOld) =
      (dailyTotalsOfRows log).map (mkSummaryRow (some gOld)) :=
    upsertRows_nil (dailyTotalsOfRows log) (some gOld)
  have h2 := upsertRows_over_prior (dailyTotalsOfRows log) (some gOld) (some gNew)
    (dailyTotals_keys_nodup log)
  rw [h1, h2]
  refine ⟨rfl, ?_⟩
  intro row hrow
  rcases List.mem_map.mp hrow with ⟨kv, -, rfl⟩
  rfl

/-- C6: every `(date, total)` pair of the totals map yields, in the
upsert's output, the record built against goal limit `g`; its status
text is "Under Goal (+r)" exactly when `remaining = g - total ≥ 0`
(including the boundary `remaining = 0`) and "Over Goal (-x)" (the
value carrying its own sign) when `remaining < 0`. -/
theorem claim6_status_classification (rows : List SummaryRow)
    (totals : TotalsMap) (g : ℚ) (k : String) (total : ℚ)
    (hmem : (k, total) ∈ totals) (hnd : (totals.map Prod.fst).Nodup) :
    mkSummaryRow (some g) (k, total) ∈ upsertRows rows totals (some g) ∧
    (0 ≤ g - total →
      (mkSummaryRow (some g) (k, total)).status =
        "Under Goal (+" ++ ratText (g - total) ++ ")") ∧
    (g - total < 0 →
      (mkSummaryRow (some g) (k, total)).status =
        "Over Goal (" ++ ratText (g - total) ++ ")") := by
  refine ⟨mk_mem_upsertRows rows totals (some g) (k, total) hmem hnd, ?_, ?_⟩
  · intro h
    simp [mkSummaryRow, jsGeZero, jsNumText, h]
  · intro h
    simp [mkSummaryRow, jsGeZero, jsNumText, not_le.mpr h]

/-- Witness for C6 at the boundary cases `remaining = 0` (Under) and
`remaining = -1` (Over). -/
theorem claim6_status_classification_witness :
    mkSummaryRow (some 2056) ("2024-01-15", 2056) ∈
      upsertRows [] [("2024-01-15", 2056)] (some 2056) ∧
    (mkSummaryRow (some 2056) ("2024-01-15", 2056)).status = "Under Goal (+0)" ∧
    (mkSummaryRow (some 2055) ("2024-01-15", 2056)).status = "Over Goal (-1)" := by
  have h0 := claim6_status_classification [] [("2024-01-15", 2056)] 2056
    "2024-01-15" 2056 (by simp) (by simp)
  have h1 := claim6_status_classification [] [("2024-01-15", 2056)] 2055
    "2024-01-15" 2056 (by simp) (by simp)
  refine ⟨h0.1, ?_, ?_⟩
  · rw [h0.2.1 (by norm_num)]
    decide
  · rw [h1.2.2 (by norm_num)]
    decide

/-- C7: the spec's concrete scenario — profile (Male, 70 kg, 175 cm,
30 y, activity 1.55, offset −500) yields BMR 1648.75, TDEE 2555.5625
and goal 2056; the pipeline over the four 2024-01-15 entries
(350+450+600+200 = 1600) produces exactly the record
(2024-01-15, 1600, 2056, "Under Goal (+456)"). -/
theorem claim7_concrete_scenario :
    getMaxCaloriesFromCells scenarioCells =
      .ok ⟨1648.75, 2555.5625, some (-500), some 2056⟩ ∧
    dailyTotalsOfRows scenarioLog = [("2024-01-15", 1600)] ∧
    runRefreshPipeline scenarioSheet =
      .ok [⟨.date "2024-01-15", 1600, some 2056, "Under Goal (+456)", "#d4edda"⟩] := by
  decide

/-- C8 counterexample: a profile with weight −70 (non-positive but
truthy) is accepted — the calculator returns goal 386 instead of
failing — and a goal-offset label "x (y)" whose leading token parses to
nothing does not fail either: the calculator returns a NaN goal. -/
theorem claim8_counterexample :
    getMaxCalories negWeightCells = .ok (some 386) ∧
    negWeightCells.weight.parseFloat = some (-70) ∧ ((-70 : ℚ) < 0) ∧
    getMaxCalories nanGoalCells = .ok none ∧
    strContains "x (y)" "(" = true ∧
    parseFloatStr (firstSpaceToken "x (y)") = none := by decide

/-- C8 amended: the calculator fails exactly when weight, height, age
or the extracted activity multiplier parses to NaN or 0 (negative
values are accepted); on success the goal offset is the extracted one,
an unparseable parenthesised goal label propagates as a NaN goal
instead of an error, and plain numeric activity input is accepted
directly. -/
theorem claim8_error_characterization :
    (∀ d : DashboardCells,
      (∃ e, getMaxCaloriesFromCells d = .error e) ↔
        (jsTruthyNum d.weight.parseFloat = false ∨
         jsTruthyNum d.height.parseFloat = false ∨
         jsTruthyNum d.age.parseFloat = false ∨
         jsTruthyNum (extractDropdownNum d.activity) = false)) ∧
    (∀ (d : DashboardCells) (o : CalcOutcome),
      getMaxCaloriesFromCells d = .ok o →
        o.goalOffset = extractGoalOffset d.goalOffset ∧
        o.maxCalories = o.goalOffset.map (fun go => jsRound (o.tdee + go))) ∧
    (∀ q : ℚ, extractDropdownNum (.num q) = some q) :=
  ⟨getMaxCaloriesFromCells_error_iff,
   getMaxCaloriesFromCells_ok_fields,
   fun _ => rfl⟩

/-- Witness for C8 amended at the scenario profile and a failing
profile. -/
theorem claim8_error_characterization_witness :
    (⟨1648.75, 2555.5625, some (-500), some 2056⟩ : CalcOutcome).goalOffset =
      extractGoalOffset scenarioCells.goalOffset ∧
    (⟨1648.75, 2555.5625, some (-500), some 2056⟩ : CalcOutcome).maxCalories =
      ((⟨1648.75, 2555.5625, some (-500), some 2056⟩ : CalcOutcome).goalOffset).map
        (fun go => jsRound ((⟨1648.75, 2555.5625, some (-500), some 2056⟩ :
          CalcOutcome).tdee + go)) :=
  claim8_error_characterization.2.1 scenarioCells
    ⟨1648.75, 2555.5625, some (-500), some 2056⟩ (by decide)

/-- C9 counterexample: an entry with a valid date and calories "abc" is
not excluded from the aggregated totals — it creates (or keeps) its
date key with a coerced contribution of 0, so the totals differ from
those of the entry set without it. -/
theorem claim9_counterexample :
    dailyTotalsOfRows [abcRow] = [("2024-01-15", 0)] ∧
    dailyTotalsOfRows [abcRow] ≠ dailyTotalsOfRows [] := by decide

/-- C9 amended: an entry whose calories cell is truthy but non-numeric
is kept with its calories coerced to 0 — it can create a zero-total key
for its own date but never changes the value stored under any other
date, and it raises no error (the aggregator is total); an entry with a
missing (empty) date cell is skipped entirely. -/
theorem claim9_invalid_entry_coerced (rows : List LogRow) (r : LogRow)
    (k : String) (hcal : r.calories.truthy = true)
    (hnum : r.calories.parseFloat = none) (hdt : r.date.truthy = true)
    (hdate : r.date.toDateKey = some k) :
    dailyTotalsOfRows (rows ++ [r]) =
      mapInsertAdd (dailyTotalsOfRows rows) k 0 ∧
    (∀ k', k' ≠ k →
      mapLookup (dailyTotalsOfRows (rows ++ [r])) k' =
        mapLookup (dailyTotalsOfRows rows) k') ∧
    (∀ (r' : LogRow) (m : TotalsMap),
      r'.date = CellVal.empty → processLogRow m r' = m) := by
  have hkey : entryKey r = some k := by
    unfold entryKey
    rw [if_pos (by rw [hdt, hcal]; rfl)]
    exact hdate
  have hcal0 : entryCalories r = 0 := by
    unfold entryCalories
    rw [hnum]
    rfl
  have hstep : dailyTotalsOfRows (rows ++ [r]) =
      mapInsertAdd (dailyTotalsOfRows rows) k 0 := by
    unfold dailyTotalsOfRows
    rw [List.foldl_append, List.foldl_cons, List.foldl_nil, processLogRow_eq, hkey,
      hcal0]
  refine ⟨hstep, ?_, ?_⟩
  · intro k' hk'
    rw [hstep]
    exact mapLookup_insertAdd_ne (dailyTotalsOfRows rows) k k' 0 hk'
  · intro r' m h'
    unfold processLogRow
    rw [h']
    rfl

/-- Witness for C9 amended: appending the "abc" entry to a one-entry
log adds only a zero-total key and leaves the other date's value
untouched. -/
theorem claim9_invalid_entry_coerced_witness :
    dailyTotalsOfRows ([⟨.date "2024-01-16", .num 5⟩] ++ [abcRow]) =
      mapInsertAdd (dailyTotalsOfRows [⟨.date "2024-01-16", .num 5⟩])
        "2024-01-15" 0 ∧
    mapLookup (dailyTotalsOfRows ([⟨.date "2024-01-16", .num 5⟩] ++ [abcRow]))
        "2024-01-16" =
      mapLookup (dailyTotalsOfRows [⟨.date "2024-01-16", .num 5⟩]) "2024-01-16" := by
  have h := claim9_invalid_entry_coerced [⟨.date "2024-01-16", .num 5⟩] abcRow
    "2024-01-15" (by decide) (by decide) (by decide) (by decide)
  exact ⟨h.1, h.2.1 "2024-01-16" (by decide)⟩

/-- C10 counterexample: at the valid profile (all metrics positive)
with TDEE + goalOffset = −1289.5 the calculator returns −1289
(`Math.round` rounds half-intervals toward +∞), while rounding
half-away-from-zero as the claim states would give −1290. -/
theorem claim10_counterexample :
    getMaxCaloriesFromCells negHalfCells =
      .ok ⟨-644.75, -1289.5, some 0, some (-1289)⟩ ∧
    specRoundHalfAwayFromZero ((-1289.5 : ℚ) + 0) = -1290 ∧
    ((-1289 : ℤ) ≠ -1290) := by decide

/-- C10 amended: whenever the calculator succeeds with a non-NaN goal
offset `go` and goal `g`, the goal is `⌊TDEE + go + 1/2⌋` — the nearest
integer to `TDEE + go` with half-intervals rounded toward positive
infinity (upward for negative values too): `g - (TDEE + go)` lies in
`(-1/2, 1/2]`. -/
theorem claim10_round_half_up (d : DashboardCells) (o : CalcOutcome)
    (go : ℚ) (g : ℤ) (h : getMaxCaloriesFromCells d = .ok o)
    (hgo : o.goalOffset = some go) (hg : o.maxCalories = some g) :
    g = ⌊o.tdee + go + 1 / 2⌋ ∧
    -(1 / 2 : ℚ) < (g : ℚ) - (o.tdee + go) ∧
    (g : ℚ) - (o.tdee + go) ≤ 1 / 2 := by
  have hfields := (getMaxCaloriesFromCells_ok_fields d o h).2
  rw [hgo] at hfields
  simp only [Option.map_some'] at hfields
  rw [hg] at hfields
  have hgr : g = jsRound (o.tdee + go) := Option.some_inj.mp hfields
  subst hgr
  exact ⟨rfl, jsRound_bounds (o.tdee + go)⟩

/-- Witness for C10 amended at the scenario profile: goal 2056 from
TDEE 2555.5625 and offset −500. -/
theorem claim10_round_half_up_witness :
    (2056 : ℤ) = ⌊(2555.5625 : ℚ) + (-500) + 1 / 2⌋ ∧
    -(1 / 2 : ℚ) < ((2056 : ℤ) : ℚ) - ((2555.5625 : ℚ) + (-500)) ∧
    ((2056 : ℤ) : ℚ) - ((2555.5625 : ℚ) + (-500)) ≤ 1 / 2 :=
  claim10_round_half_up scenarioCells
    ⟨1648.75, 2555.5625, some (-500), some 2056⟩ (-500) 2056
    (by decide) rfl rfl

end
